import Mathlib

/-!
Verification of the SkillLens asynchronous artifact/analysis pipeline.

The persistent data model is translated from the SQL DDL in
`database/schema.sql` and `database/02_artifacts_and_jobs.sql`
(tables `skills`, `repo_sources`, `skill_artifacts`, `skill_analyses`,
`analysis_jobs`, with their unique indexes and foreign-key actions).
The pipeline operations (enqueue, lease, complete, fail, reclaim, the
Artifact Fetcher, the Analysis Orchestrator, discovery/re-scrape) exist
in the repository only as a design specification, so they are modelled
from the spec, faithful to its words; the scoring rule and the trust
badges come from `Agents-new.md`.

Times are natural numbers; UUIDs are natural-number identifiers; JSONB
payloads are strings.
-/

namespace SkillLens

/-- Job type of an `analysis_jobs` row: the `job_type` column is a closed
enumeration over the strings used by the two partial dedup indexes in
`02_artifacts_and_jobs.sql`. -/
inductive JobType where
  | fetch_artifacts
  | analyze
deriving DecidableEq, Repr

/-- Job status of an `analysis_jobs` row (`status` column, default
`'queued'`); also used for `fetch_status` / analysis `status` columns,
which range over the same strings `queued|running|done|failed`. -/
inductive JobStatus where
  | queued
  | running
  | done
  | failed
deriving DecidableEq, Repr

/-- One row of the `analysis_jobs` table of
`02_artifacts_and_jobs.sql` (lines 77-94): job type, status, priority
(default 100), optional links to skill / repo source / artifact, payload,
attempt counters (`max_attempts` default 5), `last_error`, `run_after`,
and the started/finished timestamps. -/
structure AnalysisJob where
  id : Nat
  job_type : JobType
  status : JobStatus
  priority : Int
  skill_id : Option Nat
  repo_source_id : Option Nat
  artifact_id : Option Nat
  payload : String
  attempt_count : Nat
  max_attempts : Nat
  last_error : Option String
  run_after : Nat
  started_at : Option Nat
  finished_at : Option Nat
deriving DecidableEq, Repr

/-- The job table together with the id supply for fresh rows. -/
structure Queue where
  jobs : List AnalysisJob
  nextId : Nat
deriving DecidableEq, Repr

/-- The empty job table. -/
def Queue.empty : Queue := { jobs := [], nextId := 0 }

/-- A status counts as open exactly when the partial unique indexes
`idx_analysis_jobs_fetch_artifacts_dedupe` and
`idx_analysis_jobs_analyze_dedupe` cover it: `status IN ('queued','running')`. -/
def openStatus : JobStatus → Bool
  | .queued => true
  | .running => true
  | .done => false
  | .failed => false

/-- The dedup target column of a job for a given job type: the fetch
dedup index is on `skill_id`, the analyze dedup index on `artifact_id`. -/
def targetOf (jt : JobType) (j : AnalysisJob) : Option Nat :=
  match jt with
  | .fetch_artifacts => j.skill_id
  | .analyze => j.artifact_id

/-- A job conflicts with target `t` under job type `jt` when it would
occupy the corresponding partial unique index entry: same job type, open
status, and dedup column equal to `t`. -/
def conflicts (jt : JobType) (t : Nat) (j : AnalysisJob) : Bool :=
  j.job_type == jt && openStatus j.status && targetOf jt j == some t

/-- The at-most-one-open-job-per-target invariant enforced by the two
partial unique indexes of `02_artifacts_and_jobs.sql` (lines 99-105). -/
def dedupOK (jobs : List AnalysisJob) : Prop :=
  ∀ jt t, jobs.countP (conflicts jt t) ≤ 1

/-- Result of `enqueue`: either the id of a freshly inserted job, or
`AlreadyQueued` with the identity of the existing open job for the same
(target, jobType). Modelled from the spec: `enqueue(jobType, target,
payload, priority) -> JobId | AlreadyQueued`. -/
inductive EnqueueResult where
  | JobId (id : Nat)
  | AlreadyQueued (existing : Nat)
deriving DecidableEq, Repr

/-- Finds an open (`queued`/`running`) job for the given (jobType, target),
the situation in which the partial unique index would reject an insert. -/
def findOpen (q : Queue) (jt : JobType) (t : Nat) : Option AnalysisJob :=
  q.jobs.find? (conflicts jt t)

/-- The fresh `analysis_jobs` row inserted by `enqueue`: `queued`, with the
dedup target column set by job type and the other columns at their DDL
defaults (`max_attempts = 5`, `run_after = now`, `attempt_count = 0`). -/
def freshJob (q : Queue) (jt : JobType) (t : Nat) (payload : String)
    (priority : Int) (now : Nat) : AnalysisJob :=
  { id := q.nextId
    job_type := jt
    status := .queued
    priority := priority
    skill_id := if jt = .fetch_artifacts then some t else none
    repo_source_id := none
    artifact_id := if jt = .analyze then some t else none
    payload := payload
    attempt_count := 0
    max_attempts := 5
    last_error := none
    run_after := now
    started_at := none
    finished_at := none }

/-- Modelled from the spec: `enqueue` inserts a new `queued` job for the
target unless an equivalent (target, jobType) job is already `queued` or
`running`, in which case it is a no-op reporting the existing job's
identity. -/
def enqueue (q : Queue) (jt : JobType) (t : Nat) (payload : String)
    (priority : Int) (now : Nat) : Queue × EnqueueResult :=
  match findOpen q jt t with
  | some j => (q, .AlreadyQueued j.id)
  | none =>
    ({ jobs := q.jobs ++ [freshJob q jt t payload priority now],
       nextId := q.nextId + 1 }, .JobId q.nextId)

/-- Eligibility for leasing, from the spec: `status = queued AND
run_after <= now`, restricted to the requested job types. -/
def eligible (now : Nat) (jts : List JobType) (j : AnalysisJob) : Bool :=
  j.status == .queued && j.run_after ≤ now && jts.contains j.job_type

/-- The lease ordering of the spec: `priority ascending, run_after
ascending` (lower priority number = higher urgency). -/
def leaseLe (a b : AnalysisJob) : Prop :=
  a.priority < b.priority ∨ (a.priority = b.priority ∧ a.run_after ≤ b.run_after)

instance : DecidableRel leaseLe := fun a b => by
  unfold leaseLe; infer_instance

instance : IsTotal AnalysisJob leaseLe where
  total a b := by
    unfold leaseLe
    rcases lt_trichotomy a.priority b.priority with h | h | h
    · exact Or.inl (Or.inl h)
    · rcases Nat.le_total a.run_after b.run_after with h' | h'
      · exact Or.inl (Or.inr ⟨h, h'⟩)
      · exact Or.inr (Or.inr ⟨h.symm, h'⟩)
    · exact Or.inr (Or.inl h)

instance : IsTrans AnalysisJob leaseLe where
  trans a b c hab hbc := by
    unfold leaseLe at *
    rcases hab with h1 | ⟨h1, h1'⟩
    · rcases hbc with h2 | ⟨h2, _⟩
      · exact Or.inl (h1.trans h2)
      · exact Or.inl (h2 ▸ h1)
    · rcases hbc with h2 | ⟨h2, h2'⟩
      · exact Or.inl (h1 ▸ h2)
      · exact Or.inr ⟨h1.trans h2, h1'.trans h2'⟩

/-- One leased row update: transition to `running` and stamp `started_at`. -/
def claimJob (now : Nat) (j : AnalysisJob) : AnalysisJob :=
  { j with status := .running, started_at := some now }

/-- The rows selected by a lease call: eligible rows sorted by priority
then `run_after`, truncated to `limit`. -/
def leaseSelection (q : Queue) (jts : List JobType) (limit now : Nat) :
    List AnalysisJob :=
  ((q.jobs.filter (eligible now jts)).insertionSort leaseLe).take limit

/-- The per-row state update of a lease call: a selected, still-`queued`
row is claimed; every other row is untouched. The `status = queued` guard
is the atomic claim-and-lock of the content store. -/
def leaseUpdate (q : Queue) (jts : List JobType) (limit now : Nat)
    (j : AnalysisJob) : AnalysisJob :=
  if j.id ∈ (leaseSelection q jts limit now).map (·.id) ∧ j.status = .queued
  then claimJob now j else j

/-- Modelled from the spec: `lease(workerId, jobTypes, limit)` atomically
selects up to `limit` eligible jobs ordered by priority then `run_after`,
transitions them to `running` with `started_at` stamped, and returns them. -/
def lease (q : Queue) (_workerId : Nat) (jts : List JobType) (limit : Nat)
    (now : Nat) : Queue × List AnalysisJob :=
  ({ q with jobs := q.jobs.map (leaseUpdate q jts limit now) },
   (leaseSelection q jts limit now).map (claimJob now))

/-- Result of `complete`/`fail`: `ok`, or the stale-transition report when
the job is not currently `running`. -/
inductive OpResult where
  | ok
  | staleTransition
deriving DecidableEq, Repr

/-- The per-row state update of `complete`: the targeted `running` row is
marked `done` with `finished_at` stamped; every other row is untouched. -/
def completeUpdate (jobId now : Nat) (x : AnalysisJob) : AnalysisJob :=
  if x.id = jobId ∧ x.status = .running then
    { x with status := .done, finished_at := some now }
  else x

/-- Modelled from the spec: `complete(jobId, result)` marks the job `done`
and stamps `finished_at`; completing a job not in `running` state is a
no-op reported as a stale-transition error. -/
def complete (q : Queue) (jobId : Nat) (now : Nat) : Queue × OpResult :=
  match q.jobs.find? (fun j => j.id == jobId) with
  | some j =>
    if j.status = .running then
      ({ q with jobs := q.jobs.map (completeUpdate jobId now) }, .ok)
    else (q, .staleTransition)
  | none => (q, .staleTransition)

/-- The row update performed by `fail` on a running job: increment
`attempt_count`; if still below `max_attempts`, back to `queued` with
`run_after = now + backoff(attempt_count)`; otherwise terminally `failed`
with `last_error` recorded. `bf` is the configured backoff function. -/
def failUpdate (bf : Nat → Nat) (err : String) (now : Nat)
    (j : AnalysisJob) : AnalysisJob :=
  if j.attempt_count + 1 < j.max_attempts then
    { j with status := .queued, attempt_count := j.attempt_count + 1,
             run_after := now + bf (j.attempt_count + 1),
             last_error := some err }
  else
    { j with status := .failed, attempt_count := j.attempt_count + 1,
             last_error := some err }

/-- The per-row state update of `fail`: the targeted `running` row gets
`failUpdate`; every other row is untouched. -/
def failGuarded (bf : Nat → Nat) (jobId : Nat) (err : String) (now : Nat)
    (x : AnalysisJob) : AnalysisJob :=
  if x.id = jobId ∧ x.status = .running then failUpdate bf err now x else x

/-- Modelled from the spec: `fail(jobId, error)` applies `failUpdate` to a
`running` job; failing a job not in `running` state is a no-op reported as
a stale-transition error. -/
def fail (bf : Nat → Nat) (q : Queue) (jobId : Nat) (err : String)
    (now : Nat) : Queue × OpResult :=
  match q.jobs.find? (fun j => j.id == jobId) with
  | some j =>
    if j.status = .running then
      ({ q with jobs := q.jobs.map (failGuarded bf jobId err now) }, .ok)
    else (q, .staleTransition)
  | none => (q, .staleTransition)

/-- Stuck detection by `started_at` age: a running row whose `started_at`
is older than the threshold (or missing) is eligible for reclaim. -/
def stuckSince (threshold now : Nat) : Option Nat → Bool
  | some t => decide (t + threshold < now)
  | none => true

/-- The per-row state update of the reclaim sweep: a stuck `running` row
is reset to `queued` with the reclaim counted against `attempt_count`. -/
def reclaimUpdate (threshold now : Nat) (j : AnalysisJob) : AnalysisJob :=
  if j.status = .running ∧ stuckSince threshold now j.started_at = true then
    { j with status := .queued, attempt_count := j.attempt_count + 1 }
  else j

/-- Modelled from the spec: the stuck-job reclaim sweep resets to `queued`
every `running` job whose `started_at` age exceeds the threshold, counting
the reclaim against `attempt_count`. -/
def reclaim (q : Queue) (threshold : Nat) (now : Nat) : Queue :=
  { q with jobs := q.jobs.map (reclaimUpdate threshold now) }

/-- Queue states reachable from the empty table through the pipeline
operations (enqueue, lease, complete, fail, reclaim). -/
inductive Reachable : Queue → Prop where
  | empty : Reachable Queue.empty
  | enqueue (q : Queue) (jt : JobType) (t : Nat) (payload : String)
      (priority : Int) (now : Nat) :
      Reachable q → Reachable (enqueue q jt t payload priority now).1
  | lease (q : Queue) (w : Nat) (jts : List JobType) (limit now : Nat) :
      Reachable q → Reachable (lease q w jts limit now).1
  | complete (q : Queue) (jobId now : Nat) :
      Reachable q → Reachable (complete q jobId now).1
  | fail (bf : Nat → Nat) (q : Queue) (jobId : Nat) (err : String) (now : Nat) :
      Reachable q → Reachable (fail bf q jobId err now).1
  | reclaim (q : Queue) (threshold now : Nat) :
      Reachable q → Reachable (reclaim q threshold now)

/-- A concrete queued `fetch_artifacts` job used in concrete scenarios:
skill `i`, priority 100, eligible from time 0. -/
def sampleJob (i : Nat) : AnalysisJob :=
  { id := i
    job_type := .fetch_artifacts
    status := .queued
    priority := 100
    skill_id := some i
    repo_source_id := none
    artifact_id := none
    payload := ""
    attempt_count := 0
    max_attempts := 5
    last_error := none
    run_after := 0
    started_at := none
    finished_at := none }

/-- A queue of five eligible `fetch_artifacts` jobs (the C4 scenario). -/
def sampleQueue5 : Queue :=
  { jobs := [sampleJob 0, sampleJob 1, sampleJob 2, sampleJob 3, sampleJob 4]
    nextId := 5 }

/-- A single `running` fetch job with the given `max_attempts`, used in
the retry scenarios. -/
def retryJob (ma : Nat) : AnalysisJob :=
  { id := 0
    job_type := .fetch_artifacts
    status := .running
    priority := 100
    skill_id := some 1
    repo_source_id := none
    artifact_id := none
    payload := ""
    attempt_count := 0
    max_attempts := ma
    last_error := none
    run_after := 0
    started_at := some 0
    finished_at := none }

/-- The example exponential backoff of the spec: `base * 2^attempt` with
base 1 (the formula is a configuration knob). -/
def expBackoff (n : Nat) : Nat := 2 ^ n

/-- Scenario: a job with `max_attempts = 3` is failed three times (leased
again between retries once its backoff elapses). -/
def failThriceEnd : Queue :=
  let q0 : Queue := { jobs := [retryJob 3], nextId := 1 }
  let q1 := (fail expBackoff q0 0 "e1" 0).1
  let q2 := (lease q1 7 [JobType.fetch_artifacts] 1 2).1
  let q3 := (fail expBackoff q2 0 "e2" 2).1
  let q4 := (lease q3 7 [JobType.fetch_artifacts] 1 6).1
  (fail expBackoff q4 0 "e3" 6).1

/-- Scenario: a job with `max_attempts = 5` fails twice and then
completes. -/
def failTwiceDoneEnd : Queue :=
  let q0 : Queue := { jobs := [retryJob 5], nextId := 1 }
  let q1 := (fail expBackoff q0 0 "e1" 0).1
  let q2 := (lease q1 7 [JobType.fetch_artifacts] 1 2).1
  let q3 := (fail expBackoff q2 0 "e2" 2).1
  let q4 := (lease q3 7 [JobType.fetch_artifacts] 1 6).1
  (complete q4 0 6).1

/-- One row of the `repo_sources` table of `02_artifacts_and_jobs.sql`
(lines 6-19): repository url, fetch status, attempt count, last error,
last fetch timestamp. -/
structure RepoSource where
  id : Nat
  repository_url : String
  fetch_status : JobStatus
  attempt_count : Nat
  last_error : Option String
  last_fetched_at : Option Nat
deriving DecidableEq, Repr

/-- One row of the `skill_artifacts` table of `02_artifacts_and_jobs.sql`
(lines 27-43): owning skill and repo source, parse version, content hash,
fetch status. Unique per (skill_id, artifact_hash, parse_version) by
`idx_skill_artifacts_skill_hash_parse_unique`. -/
structure SkillArtifact where
  id : Nat
  skill_id : Nat
  repo_source_id : Nat
  parse_version : String
  artifact_hash : String
  fetch_status : JobStatus
  fetched_at : Option Nat
deriving DecidableEq, Repr

/-- One row of the `skill_analyses` table of `02_artifacts_and_jobs.sql`
(lines 51-69): owning skill, nullable repo source, owning artifact,
analysis version, status, score, badge, error. Unique per
(artifact_id, analysis_version) by
`idx_skill_analyses_artifact_version_unique`. -/
structure SkillAnalysis where
  id : Nat
  skill_id : Nat
  repo_source_id : Option Nat
  artifact_id : Nat
  analysis_version : String
  status : JobStatus
  overall_score : Option Nat
  trust_badge : Option String
  error_message : Option String
deriving DecidableEq, Repr

/-- The state the Artifact Fetcher works on: the artifact and repo-source
tables, the job queue, and the artifact id supply. -/
structure FetchState where
  artifacts : List SkillArtifact
  repoSources : List RepoSource
  queue : Queue
  nextArtifactId : Nat
deriving DecidableEq, Repr

/-- The most recent artifact content hash recorded for (skill,
parse_version): hash of the last matching row in insertion order. -/
def latestArtifactHash (arts : List SkillArtifact) (s : Nat) (pv : String) :
    Option String :=
  ((arts.filter (fun a => a.skill_id == s && a.parse_version == pv)).map
    (·.artifact_hash)).getLast?

/-- Row update marking a repo source's fetch `done` with
`last_fetched_at` stamped. -/
def repoSourceDoneUpdate (rs now : Nat) (r : RepoSource) : RepoSource :=
  if r.id = rs then { r with fetch_status := .done, last_fetched_at := some now }
  else r

/-- Marks the fetch of repo source `rs` as `done`. -/
def markRepoSourceDone (rss : List RepoSource) (rs now : Nat) :
    List RepoSource :=
  rss.map (repoSourceDoneUpdate rs now)

/-- The new `skill_artifacts` row created by a fetch that found changed or
absent content: `fetch_status = done` per the spec. -/
def freshArtifact (st : FetchState) (s rs : Nat) (pv h : String) (now : Nat) :
    SkillArtifact :=
  { id := st.nextArtifactId
    skill_id := s
    repo_source_id := rs
    parse_version := pv
    artifact_hash := h
    fetch_status := .done
    fetched_at := some now }

/-- Modelled from the spec: the Artifact Fetcher compares the fetched
content hash `h` against the most recent artifact's hash for
(skill, parse_version). Unchanged: mark the repo source `done`, create no
artifact. Changed or absent: create one new artifact row
(`fetch_status = done`) and enqueue an `analyze` job targeting it. -/
def fetchArtifacts (st : FetchState) (s rs : Nat) (pv h : String)
    (now : Nat) : FetchState :=
  if latestArtifactHash st.artifacts s pv = some h then
    { st with repoSources := markRepoSourceDone st.repoSources rs now }
  else
    { artifacts := st.artifacts ++ [freshArtifact st s rs pv h now]
      repoSources := markRepoSourceDone st.repoSources rs now
      queue := (enqueue st.queue .analyze st.nextArtifactId "{}" 100 now).1
      nextArtifactId := st.nextArtifactId + 1 }

/-- A sample fetch state: one queued repo source, no artifacts yet. -/
def sampleFetchState : FetchState :=
  { artifacts := []
    repoSources := [{ id := 0, repository_url := "https://example.test/r"
                      fetch_status := .queued, attempt_count := 0
                      last_error := none, last_fetched_at := none }]
    queue := Queue.empty
    nextArtifactId := 0 }

/-- Security finding severities of the deterministic scan
(`Agents-new.md`). -/
inductive Severity where
  | CRITICAL
  | HIGH
  | MEDIUM
  | LOW
deriving DecidableEq, Repr

/-- Risk scoring of `Agents-new.md`: CRITICAL 100, HIGH 25, MEDIUM 5,
LOW 1. -/
def severityPoints : Severity → Nat
  | .CRITICAL => 100
  | .HIGH => 25
  | .MEDIUM => 5
  | .LOW => 1

/-- `overall_score`: the sum of the point contributions of the security
findings. -/
def overallScore (findings : List Severity) : Nat :=
  (findings.map severityPoints).sum

/-- Trust badges of `Agents-new.md`: 0-4 Verified Safe, 5-19 Generally
Safe, 20-49 Review Recommended, 50-99 Use With Caution, 100+ Not
Recommended. -/
def trustBadge (score : Nat) : String :=
  if score ≤ 4 then "Verified Safe"
  else if score ≤ 19 then "Generally Safe"
  else if score ≤ 49 then "Review Recommended"
  else if score ≤ 99 then "Use With Caution"
  else "Not Recommended"

/-- The unique key of `idx_skill_analyses_artifact_version_unique`:
(artifact_id, analysis_version). -/
def analysisKey (aid : Nat) (v : String) (r : SkillAnalysis) : Bool :=
  r.artifact_id == aid && r.analysis_version == v

/-- Row replacement performed by the upsert: the stored row for the key
keeps its primary key id but takes every other column from `row`. -/
def overwriteAnalysis (row r : SkillAnalysis) : SkillAnalysis :=
  if analysisKey row.artifact_id row.analysis_version r then
    { row with id := r.id }
  else r

/-- Modelled from the spec: insert-or-overwrite on the unique
(artifact_id, analysis_version) constraint — re-invocation overwrites
rather than duplicates. -/
def upsertAnalysis (l : List SkillAnalysis) (row : SkillAnalysis) :
    List SkillAnalysis :=
  if l.any (analysisKey row.artifact_id row.analysis_version) then
    l.map (overwriteAnalysis row)
  else l ++ [row]

/-- Modelled from the spec: the Analysis Orchestrator combines the
analyzer outputs into `overall_score` and `trust_badge` with the fixed
scoring rule and writes the `done` result row for
(artifact, analysis_version) via the upsert. -/
def runAnalysis (analyses : List SkillAnalysis) (nextId skillId aid : Nat)
    (ver : String) (findings : List Severity) : List SkillAnalysis :=
  upsertAnalysis analyses
    { id := nextId
      skill_id := skillId
      repo_source_id := none
      artifact_id := aid
      analysis_version := ver
      status := .done
      overall_score := some (overallScore findings)
      trust_badge := some (trustBadge (overallScore findings))
      error_message := none }

/-- One row of the `skills` table (`database/schema.sql`): catalog
identity (source, owner, repo, skill_slug), page metadata, popularity
metrics and timestamps. Unique per (source, owner, repo, skill_slug) by
`idx_skills_canonical`. -/
structure SkillRow where
  id : Nat
  name : String
  source : String
  owner : String
  repo : String
  skill_slug : String
  page_url : String
  install_command : String
  skill_content : String
  weekly_installs : Nat
  first_seen_date : Nat
  scraped_at : Nat
  last_seen_at : Nat
deriving DecidableEq, Repr

/-- The canonical identity tuple of `idx_skills_canonical`. -/
def canonicalKey (r : SkillRow) : String × String × String × String :=
  (r.source, r.owner, r.repo, r.skill_slug)

/-- The columns a re-scrape never touches: identity, page metadata,
content, and the first-seen date. -/
def skillStaticFields (r : SkillRow) :
    Nat × String × String × String × String × String × String × String ×
      String × Nat :=
  (r.id, r.name, r.source, r.owner, r.repo, r.skill_slug, r.page_url,
   r.install_command, r.skill_content, r.first_seen_date)

/-- The `skills` table with its id supply. -/
structure SkillsTable where
  rows : List SkillRow
  nextId : Nat
deriving DecidableEq, Repr

/-- The fresh skill row created by discovery for a discovered
(source, owner, repo, skill_slug). -/
def discoveredRow (tbl : SkillsTable) (source owner repo slug name url cmd
    content : String) (now : Nat) : SkillRow :=
  { id := tbl.nextId
    name := name
    source := source
    owner := owner
    repo := repo
    skill_slug := slug
    page_url := url
    install_command := cmd
    skill_content := content
    weekly_installs := 0
    first_seen_date := now
    scraped_at := now
    last_seen_at := now }

/-- Modelled from the spec: discovery creates a skill row for a discovered
(source, owner, repo, skill_slug) unless a row with that canonical tuple
already exists. -/
def discover (tbl : SkillsTable) (source owner repo slug name url cmd
    content : String) (now : Nat) : SkillsTable :=
  if tbl.rows.any (fun r => canonicalKey r = (source, owner, repo, slug)) then
    tbl
  else
    { rows := tbl.rows ++ [discoveredRow tbl source owner repo slug name url cmd content now]
      nextId := tbl.nextId + 1 }

/-- The per-row update of a re-scrape: metrics (`weekly_installs`) and
timestamps (`scraped_at`, `last_seen_at`) only. -/
def rescrapeUpdate (source owner repo slug : String) (installs now : Nat)
    (r : SkillRow) : SkillRow :=
  if canonicalKey r = (source, owner, repo, slug) then
    { r with weekly_installs := installs, scraped_at := now,
             last_seen_at := now }
  else r

/-- Modelled from the spec: a re-scrape mutates the metrics/timestamp
columns of the row with the given canonical tuple. -/
def rescrape (tbl : SkillsTable) (source owner repo slug : String)
    (installs now : Nat) : SkillsTable :=
  { tbl with rows := tbl.rows.map (rescrapeUpdate source owner repo slug installs now) }

/-- Skills-table states reachable from the empty table through discovery
and re-scrapes. -/
inductive SkillsReachable : SkillsTable → Prop where
  | empty : SkillsReachable { rows := [], nextId := 0 }
  | discover (tbl : SkillsTable) (source owner repo slug name url cmd
      content : String) (now : Nat) :
      SkillsReachable tbl →
      SkillsReachable (discover tbl source owner repo slug name url cmd content now)
  | rescrape (tbl : SkillsTable) (source owner repo slug : String)
      (installs now : Nat) :
      SkillsReachable tbl →
      SkillsReachable (rescrape tbl source owner repo slug installs now)

/-- The five-table database state for the deletion/frame analysis. -/
structure Db where
  repo_sources : List RepoSource
  skills : List Nat
  artifacts : List SkillArtifact
  analyses : List SkillAnalysis
  jobs : List AnalysisJob
deriving DecidableEq, Repr

/-- Ids of the artifacts cascade-deleted with repo source `r`
(`skill_artifacts.repo_source_id ... ON DELETE CASCADE`). -/
def artifactIdsOfRepoSource (db : Db) (r : Nat) : List Nat :=
  (db.artifacts.filter (fun a => a.repo_source_id == r)).map (·.id)

/-- Ids of the artifacts cascade-deleted with skill `s`
(`skill_artifacts.skill_id ... ON DELETE CASCADE`). -/
def artifactIdsOfSkill (db : Db) (s : Nat) : List Nat :=
  (db.artifacts.filter (fun a => a.skill_id == s)).map (·.id)

/-- `ON DELETE SET NULL` of `skill_analyses.repo_source_id`. -/
def nullifyAnalysisRepoSource (r : Nat) (y : SkillAnalysis) : SkillAnalysis :=
  if y.repo_source_id = some r then { y with repo_source_id := none } else y

/-- `ON DELETE SET NULL` of `analysis_jobs.repo_source_id`. -/
def nullifyJobRepoSource (r : Nat) (j : AnalysisJob) : AnalysisJob :=
  if j.repo_source_id = some r then { j with repo_source_id := none } else j

/-- Deleting a `repo_sources` row under the foreign-key actions of
`02_artifacts_and_jobs.sql`: referencing `skill_artifacts` rows are
cascade-deleted, transitively deleting their `skill_analyses` and
`analysis_jobs` rows (`artifact_id ON DELETE CASCADE`); the surviving
`skill_analyses.repo_source_id` / `analysis_jobs.repo_source_id`
references are set to NULL (`ON DELETE SET NULL`). -/
def deleteRepoSource (db : Db) (r : Nat) : Db :=
  { repo_sources := db.repo_sources.filter (fun x => decide (x.id ≠ r))
    skills := db.skills
    artifacts := db.artifacts.filter (fun a => decide (a.repo_source_id ≠ r))
    analyses := (db.analyses.filter
        (fun y => decide (y.artifact_id ∉ artifactIdsOfRepoSource db r))).map
      (nullifyAnalysisRepoSource r)
    jobs := (db.jobs.filter
        (fun j => decide (j.artifact_id ∉ (artifactIdsOfRepoSource db r).map some))).map
      (nullifyJobRepoSource r) }

/-- Deleting a `skills` row under the foreign-key actions of the DDL:
its `skill_artifacts`, `skill_analyses` and `analysis_jobs` rows are
cascade-deleted (directly via `skill_id` and transitively via the
cascaded artifacts); `repo_sources` is untouched. -/
def deleteSkill (db : Db) (s : Nat) : Db :=
  { repo_sources := db.repo_sources
    skills := db.skills.filter (fun i => decide (i ≠ s))
    artifacts := db.artifacts.filter (fun a => decide (a.skill_id ≠ s))
    analyses := db.analyses.filter
      (fun y => decide (y.skill_id ≠ s ∧ y.artifact_id ∉ artifactIdsOfSkill db s))
    jobs := db.jobs.filter
      (fun j => decide (j.skill_id ≠ some s ∧
        j.artifact_id ∉ (artifactIdsOfSkill db s).map some)) }

/-- Deleting a `skill_artifacts` row under the foreign-key actions of the
DDL: its `skill_analyses` and `analysis_jobs` rows are cascade-deleted;
`repo_sources` and `skills` are untouched. -/
def deleteArtifact (db : Db) (a : Nat) : Db :=
  { db with
    artifacts := db.artifacts.filter (fun x => decide (x.id ≠ a))
    analyses := db.analyses.filter (fun y => decide (y.artifact_id ≠ a))
    jobs := db.jobs.filter (fun j => decide (j.artifact_id ≠ some a)) }

/-- A sample database: one repo source (id 0) backing one artifact (id 0)
of skill 1, with one analysis row and one analyze job for that artifact,
plus an unrelated analysis row referencing the repo source only. -/
def sampleDb : Db :=
  { repo_sources := [{ id := 0, repository_url := "https://example.test/r"
                       fetch_status := .done, attempt_count := 0
                       last_error := none, last_fetched_at := some 3 }]
    skills := [1]
    artifacts := [{ id := 0, skill_id := 1, repo_source_id := 0
                    parse_version := "v1", artifact_hash := "h1"
                    fetch_status := .done, fetched_at := some 3 }]
    analyses := [{ id := 0, skill_id := 1, repo_source_id := some 0
                   artifact_id := 0, analysis_version := "a1"
                   status := .done, overall_score := some 0
                   trust_badge := some "Verified Safe", error_message := none },
                 { id := 1, skill_id := 2, repo_source_id := some 0
                   artifact_id := 9, analysis_version := "a1"
                   status := .done, overall_score := some 0
                   trust_badge := some "Verified Safe", error_message := none }]
    jobs := [{ id := 0, job_type := .analyze, status := .done, priority := 100
               skill_id := some 1, repo_source_id := some 0
               artifact_id := some 0, payload := "", attempt_count := 1
               max_attempts := 5, last_error := none, run_after := 0
               started_at := some 1, finished_at := some 2 }] }



lemma countP_map_le_of_imp {α : Type} (f : α → α)
    (p : α → Bool) (l : List α)
    (h : ∀ a ∈ l, p (f a) = true → p a = true) :
    (l.map f).countP p ≤ l.countP p := by
  induction l with
  | nil => simp
  | cons a l ih =>
    simp only [List.map_cons, List.countP_cons]
    have ihl := ih (fun a ha => h a (List.mem_cons_of_mem _ ha))
    by_cases hpf : p (f a) = true
    · have hpa : p a = true := h a (List.mem_cons_self a l) hpf
      rw [if_pos hpf, if_pos hpa]
      omega
    · rw [if_neg hpf, Nat.add_zero]
      exact le_trans ihl (Nat.le_add_right _ _)

lemma dedupOK_map (f : AnalysisJob → AnalysisJob) (l : List AnalysisJob)
    (h : ∀ jt t, ∀ a ∈ l, conflicts jt t (f a) = true → conflicts jt t a = true)
    (hd : dedupOK l) : dedupOK (l.map f) := fun jt t =>
  le_trans (countP_map_le_of_imp f _ l (h jt t)) (hd jt t)

lemma conflicts_claimJob (jt : JobType) (t now : Nat) (j : AnalysisJob)
    (hq : j.status = .queued) :
    conflicts jt t (claimJob now j) = conflicts jt t j := by
  cases jt <;> simp [conflicts, claimJob, targetOf, openStatus, hq]

lemma conflicts_freshJob (q : Queue) (jt jt' : JobType) (t t' : Nat)
    (payload : String) (priority : Int) (now : Nat)
    (h : conflicts jt' t' (freshJob q jt t payload priority now) = true) :
    jt' = jt ∧ t' = t := by
  cases jt <;> cases jt' <;>
    simp_all [conflicts, freshJob, targetOf, openStatus]

lemma dedupOK_enqueue_op (q : Queue) (jt : JobType) (t : Nat) (payload : String)
    (priority : Int) (now : Nat) (hd : dedupOK q.jobs) :
    dedupOK (enqueue q jt t payload priority now).1.jobs := by
  unfold enqueue
  split
  · simpa using hd
  · rename_i hfind
    intro jt' t'
    simp only [List.countP_append, List.countP_singleton]
    unfold findOpen at hfind
    rw [List.find?_eq_none] at hfind
    by_cases hc : conflicts jt' t' (freshJob q jt t payload priority now) = true
    · obtain ⟨hjt, htt⟩ := conflicts_freshJob q jt jt' t t' payload priority now hc
      subst hjt
      subst htt
      have hzero : q.jobs.countP (conflicts jt' t') = 0 := by
        rw [List.countP_eq_zero]
        intro a ha hca
        exact hfind a ha hca
      rw [hzero, if_pos hc]
    · rw [if_neg hc, Nat.add_zero]
      exact hd jt' t'

lemma dedupOK_lease_op (q : Queue) (w : Nat) (jts : List JobType)
    (limit now : Nat) (hd : dedupOK q.jobs) :
    dedupOK (lease q w jts limit now).1.jobs := by
  unfold lease
  refine dedupOK_map _ _ (fun jt t a _ hc => ?_) hd
  unfold leaseUpdate at hc
  split at hc
  · rename_i hg
    rwa [conflicts_claimJob jt t now a hg.2] at hc
  · exact hc

lemma dedupOK_complete_op (q : Queue) (jobId now : Nat) (hd : dedupOK q.jobs) :
    dedupOK (complete q jobId now).1.jobs := by
  unfold complete
  split
  · split
    · refine dedupOK_map _ _ (fun jt t a _ hc => ?_) hd
      unfold completeUpdate at hc
      split at hc
      · exfalso
        simp [conflicts, openStatus] at hc
      · exact hc
    · exact hd
  · exact hd

lemma conflicts_failUpdate (jt : JobType) (t : Nat) (bf : Nat → Nat)
    (err : String) (now : Nat) (a : AnalysisJob) (hr : a.status = .running) :
    conflicts jt t (failUpdate bf err now a) = true → conflicts jt t a = true := by
  intro hc
  unfold failUpdate at hc
  by_cases hlt : a.attempt_count + 1 < a.max_attempts
  · rw [if_pos hlt] at hc
    cases jt <;> simp_all [conflicts, targetOf, openStatus]
  · rw [if_neg hlt] at hc
    exfalso
    cases jt <;> simp_all [conflicts, targetOf, openStatus]

lemma dedupOK_fail_op (bf : Nat → Nat) (q : Queue) (jobId : Nat) (err : String)
    (now : Nat) (hd : dedupOK q.jobs) :
    dedupOK (fail bf q jobId err now).1.jobs := by
  unfold fail
  split
  · split
    · refine dedupOK_map _ _ (fun jt t a _ hc => ?_) hd
      unfold failGuarded at hc
      split at hc
      · rename_i hg
        exact conflicts_failUpdate jt t bf err now a hg.2 hc
      · exact hc
    · exact hd
  · exact hd

lemma dedupOK_reclaim_op (q : Queue) (threshold now : Nat) (hd : dedupOK q.jobs) :
    dedupOK (reclaim q threshold now).jobs := by
  unfold reclaim
  refine dedupOK_map _ _ (fun jt t a _ hc => ?_) hd
  unfold reclaimUpdate at hc
  split at hc
  · rename_i hg
    have hra : a.status = .running := hg.1
    cases jt <;> simp_all [conflicts, targetOf, openStatus]
  · exact hc


/-- Claim C1: in every reachable job-table state there is at most one
`queued`/`running` job per (skill, job_type = fetch_artifacts) and at most
one per (artifact, job_type = analyze) — the partial-unique-index dedup
invariant of `02_artifacts_and_jobs.sql` — and every pipeline operation
(enqueue, lease, complete, fail, reclaim) preserves it. -/
theorem c1_dedup_invariant_reachable (q : Queue) (h : Reachable q) :
    dedupOK q.jobs := by
  induction h with
  | empty => intro jt t; simp [Queue.empty]
  | enqueue q jt t payload priority now _ ih =>
    exact dedupOK_enqueue_op q jt t payload priority now ih
  | lease q w jts limit now _ ih => exact dedupOK_lease_op q w jts limit now ih
  | complete q jobId now _ ih => exact dedupOK_complete_op q jobId now ih
  | fail bf q jobId err now _ ih => exact dedupOK_fail_op bf q jobId err now ih
  | reclaim q threshold now _ ih => exact dedupOK_reclaim_op q threshold now ih

/-- Claim C1 witness: the invariant holds at the concrete reachable state
obtained by enqueueing one fetch job into the empty table. -/
theorem c1_dedup_invariant_reachable_witness :
    dedupOK (enqueue Queue.empty .fetch_artifacts 1 "" 100 0).1.jobs :=
  c1_dedup_invariant_reachable _
    (Reachable.enqueue Queue.empty .fetch_artifacts 1 "" 100 0 Reachable.empty)

/-- Claim C2: when an open (`queued`/`running`) job already exists for a
(target, jobType), `enqueue` for the same pair leaves the job table
unchanged, returns the existing job's identity as `AlreadyQueued`, and the
count of open jobs for that target stays exactly 1. -/
theorem c2_enqueue_already_queued (q : Queue) (jt : JobType) (t : Nat)
    (payload : String) (priority : Int) (now : Nat) (j : AnalysisJob)
    (hfind : findOpen q jt t = some j) (hd : dedupOK q.jobs) :
    enqueue q jt t payload priority now = (q, .AlreadyQueued j.id) ∧
    q.jobs.countP (conflicts jt t) = 1 ∧
    (enqueue q jt t payload priority now).1.jobs.countP (conflicts jt t) = 1 := by
  have he : enqueue q jt t payload priority now = (q, .AlreadyQueued j.id) := by
    unfold enqueue
    rw [hfind]
  have hmem : j ∈ q.jobs := List.mem_of_find?_eq_some hfind
  have hconf : conflicts jt t j = true := List.find?_some hfind
  have hone : q.jobs.countP (conflicts jt t) = 1 := by
    have hge : 0 < q.jobs.countP (conflicts jt t) :=
      List.countP_pos_iff.mpr ⟨j, hmem, hconf⟩
    have hle := hd jt t
    omega
  exact ⟨he, hone, by rw [he]; exact hone⟩

/-- Claim C2 witness: enqueuing a second fetch job for skill 1 on a queue
that already holds an open fetch job for skill 1 is a no-op reporting the
existing id 0, keeping the open-job count at 1. -/
theorem c2_enqueue_already_queued_witness :
    enqueue (enqueue Queue.empty .fetch_artifacts 1 "" 100 0).1
        .fetch_artifacts 1 "p2" 50 9 =
      ((enqueue Queue.empty .fetch_artifacts 1 "" 100 0).1,
        .AlreadyQueued 0) ∧
    (enqueue Queue.empty .fetch_artifacts 1 "" 100 0).1.jobs.countP
        (conflicts .fetch_artifacts 1) = 1 ∧
    (enqueue (enqueue Queue.empty .fetch_artifacts 1 "" 100 0).1
        .fetch_artifacts 1 "p2" 50 9).1.jobs.countP
        (conflicts .fetch_artifacts 1) = 1 :=
  c2_enqueue_already_queued _ .fetch_artifacts 1 "p2" 50 9
    (freshJob Queue.empty .fetch_artifacts 1 "" 100 0) (by decide)
    (fun jt t => le_trans (List.countP_le_length (conflicts jt t)) (by decide))

lemma mem_of_mem_leaseSelection (q : Queue) (jts : List JobType)
    (limit now : Nat) (j : AnalysisJob)
    (h : j ∈ leaseSelection q jts limit now) :
    j ∈ q.jobs ∧ eligible now jts j = true := by
  unfold leaseSelection at h
  have h1 : j ∈ (q.jobs.filter (eligible now jts)).insertionSort leaseLe :=
    List.take_subset _ _ h
  rw [List.mem_insertionSort] at h1
  exact ⟨List.mem_of_mem_filter h1, List.of_mem_filter h1⟩

lemma eligible_split (now : Nat) (jts : List JobType) (j : AnalysisJob)
    (h : eligible now jts j = true) :
    j.status = .queued ∧ j.run_after ≤ now ∧ jts.contains j.job_type = true := by
  unfold eligible at h
  simp only [Bool.and_eq_true, beq_iff_eq, decide_eq_true_eq] at h
  exact ⟨h.1.1, h.1.2, h.2⟩

lemma claimJob_mem_lease_state (q : Queue) (w : Nat) (jts : List JobType)
    (limit now : Nat) (j0 : AnalysisJob)
    (hsel : j0 ∈ leaseSelection q jts limit now) :
    claimJob now j0 ∈ (lease q w jts limit now).1.jobs := by
  obtain ⟨hmem, helig⟩ := mem_of_mem_leaseSelection q jts limit now j0 hsel
  obtain ⟨hq, -, -⟩ := eligible_split now jts j0 helig
  have hid : j0.id ∈ (leaseSelection q jts limit now).map (·.id) :=
    List.mem_map_of_mem (·.id) hsel
  have hfn : leaseUpdate q jts limit now j0 = claimJob now j0 := by
    unfold leaseUpdate
    rw [if_pos ⟨hid, hq⟩]
  have hmm := List.mem_map_of_mem (leaseUpdate q jts limit now) hmem
  rw [hfn] at hmm
  exact hmm

/-- Claim C7: every `lease` call returns at most `limit` jobs, all of which
were `queued` with `run_after ≤ now` and of a requested job type, ordered
by priority ascending then `run_after` ascending; each returned job is the
claimed (`running`, `started_at = now`) copy of a table row, and that
claimed copy is present in the post-lease table. -/
theorem c7_lease_postcondition (q : Queue) (w : Nat) (jts : List JobType)
    (limit now : Nat) :
    (lease q w jts limit now).2.length ≤ limit ∧
    (lease q w jts limit now).2.Pairwise leaseLe ∧
    ∀ j ∈ (lease q w jts limit now).2,
      j.status = .running ∧ j.started_at = some now ∧ j.run_after ≤ now ∧
      jts.contains j.job_type = true ∧
      ∃ j0 ∈ q.jobs, j0.status = .queued ∧ j0.run_after ≤ now ∧
        j = claimJob now j0 ∧
        claimJob now j0 ∈ (lease q w jts limit now).1.jobs := by
  refine ⟨?_, ?_, ?_⟩
  · show ((leaseSelection q jts limit now).map (claimJob now)).length ≤ limit
    rw [List.length_map]
    exact List.length_take_le _ _
  · show ((leaseSelection q jts limit now).map (claimJob now)).Pairwise leaseLe
    have hs : (leaseSelection q jts limit now).Pairwise leaseLe :=
      List.Pairwise.sublist (List.take_sublist _ _)
        (List.sorted_insertionSort leaseLe _)
    refine List.Pairwise.map _ (fun a b hab => ?_) hs
    unfold leaseLe claimJob at *
    exact hab
  · intro j hj
    have hj' : j ∈ (leaseSelection q jts limit now).map (claimJob now) := hj
    rw [List.mem_map] at hj'
    obtain ⟨j0, hsel, heq⟩ := hj'
    obtain ⟨hmem, helig⟩ := mem_of_mem_leaseSelection q jts limit now j0 hsel
    obtain ⟨hq0, hra, hct⟩ := eligible_split now jts j0 helig
    subst heq
    refine ⟨rfl, rfl, hra, hct, j0, hmem, hq0, hra, rfl, ?_⟩
    exact claimJob_mem_lease_state q w jts limit now j0 hsel

/-- Claim C4: leasing is exclusive — for every pair of lease calls (any
limits, any workers), no job is returned to both callers: the id sets of
the two calls' results are disjoint, unconditionally. Additionally, when
the first call's limit covers every eligible job, each eligible job is
returned to the first caller; so in the two-worker scenario every eligible
job goes to exactly one caller, none duplicated, none dropped. -/
theorem c4_lease_exclusive (q : Queue) (w1 w2 : Nat) (jts : List JobType)
    (limit1 limit2 now1 now2 : Nat) :
    (∀ i ∈ (lease q w1 jts limit1 now1).2.map (·.id),
        i ∉ (lease (lease q w1 jts limit1 now1).1 w2 jts limit2 now2).2.map (·.id)) ∧
    ((q.jobs.filter (eligible now1 jts)).length ≤ limit1 →
      ∀ j ∈ q.jobs, eligible now1 jts j = true →
        j.id ∈ (lease q w1 jts limit1 now1).2.map (·.id)) := by
  have hmapid : ∀ (sel : List AnalysisJob) (m : Nat),
      (sel.map (claimJob m)).map (·.id) = sel.map (·.id) := by
    intro sel m
    rw [List.map_map]
    rfl
  constructor
  · intro i hi1 hi2
    -- `i` is the id of a selected-and-claimed row of the first call
    have hi1' : i ∈ (leaseSelection q jts limit1 now1).map (·.id) := by
      rw [← hmapid (leaseSelection q jts limit1 now1) now1]
      exact hi1
    -- the second call only returns still-`queued` rows of the updated table
    have hi2' : ∃ j2 ∈ (lease q w1 jts limit1 now1).1.jobs,
        j2.status = .queued ∧ j2.id = i := by
      have h2 : i ∈ (leaseSelection (lease q w1 jts limit1 now1).1 jts
          limit2 now2).map (·.id) := by
        rw [← hmapid (leaseSelection (lease q w1 jts limit1 now1).1 jts limit2 now2) now2]
        exact hi2
      rw [List.mem_map] at h2
      obtain ⟨j0, hsel, hjid⟩ := h2
      obtain ⟨hmem, helig⟩ :=
        mem_of_mem_leaseSelection (lease q w1 jts limit1 now1).1 jts limit2 now2 j0 hsel
      obtain ⟨hq0, -, -⟩ := eligible_split now2 jts j0 helig
      exact ⟨j0, hmem, hq0, hjid⟩
    obtain ⟨j2, hmem2, hq2, hid2⟩ := hi2'
    -- but every row of the updated table whose id was selected is `running`
    have hmem2' : j2 ∈ q.jobs.map (leaseUpdate q jts limit1 now1) := hmem2
    rw [List.mem_map] at hmem2'
    obtain ⟨x, hx, hxeq⟩ := hmem2'
    unfold leaseUpdate at hxeq
    split at hxeq
    · rw [← hxeq] at hq2
      simp [claimJob] at hq2
    · rename_i hg
      subst hxeq
      exact hg ⟨by rw [hid2]; exact hi1', hq2⟩
  · intro hcap j hj helig
    have hfull : leaseSelection q jts limit1 now1
        = (q.jobs.filter (eligible now1 jts)).insertionSort leaseLe := by
      unfold leaseSelection
      apply List.take_of_length_le
      rw [List.length_insertionSort]
      exact hcap
    have hjf : j ∈ q.jobs.filter (eligible now1 jts) :=
      List.mem_filter.mpr ⟨hj, helig⟩
    have hjs : j ∈ leaseSelection q jts limit1 now1 := by
      rw [hfull, List.mem_insertionSort]
      exact hjf
    show j.id ∈ ((leaseSelection q jts limit1 now1).map (claimJob now1)).map (·.id)
    rw [hmapid]
    exact List.mem_map_of_mem (·.id) hjs

/-- Claim C4 witness: exclusivity also holds under contention — with limit
3 against five eligible fetch jobs the two calls' result ids are disjoint;
and with limit 10 all five ids go to the first caller. -/
theorem c4_lease_exclusive_witness :
    (∀ i ∈ (lease sampleQueue5 1 [JobType.fetch_artifacts] 3 0).2.map (·.id),
        i ∉ (lease (lease sampleQueue5 1 [JobType.fetch_artifacts] 3 0).1
              2 [JobType.fetch_artifacts] 3 0).2.map (·.id)) ∧
    (∀ j ∈ sampleQueue5.jobs, eligible 0 [JobType.fetch_artifacts] j = true →
        j.id ∈ (lease sampleQueue5 1 [JobType.fetch_artifacts] 10 0).2.map (·.id)) :=
  ⟨(c4_lease_exclusive sampleQueue5 1 2 [JobType.fetch_artifacts] 3 3 0 0).1,
   (c4_lease_exclusive sampleQueue5 1 2 [JobType.fetch_artifacts] 10 10 0 0).2
     (by decide)⟩

/-- Claim C3: `fail` on a running job reports `ok` and rewrites the row by
`failUpdate`, which increments `attempt_count` and either requeues with
exponential backoff (`run_after = now + backoff(attempt_count)`) when the
incremented count is below `max_attempts`, or terminally fails the job
recording `last_error`; concretely, a job with `max_attempts = 3` failed
three times ends `failed` with `attempt_count = 3` and a non-null
`last_error`, and a job with `max_attempts = 5` failed twice then
completed ends `done` with `attempt_count = 2`. -/
theorem c3_fail_retry_semantics (bf : Nat → Nat) (q : Queue) (jobId : Nat)
    (err : String) (now : Nat) (j : AnalysisJob)
    (hfind : q.jobs.find? (fun x => x.id == jobId) = some j)
    (hr : j.status = .running) :
    (fail bf q jobId err now).2 = .ok ∧
    (failUpdate bf err now j).attempt_count = j.attempt_count + 1 ∧
    (j.attempt_count + 1 < j.max_attempts →
      (failUpdate bf err now j).status = .queued ∧
      (failUpdate bf err now j).run_after = now + bf (j.attempt_count + 1) ∧
      (failUpdate bf err now j).last_error = some err) ∧
    (¬ j.attempt_count + 1 < j.max_attempts →
      (failUpdate bf err now j).status = .failed ∧
      (failUpdate bf err now j).last_error = some err) ∧
    failUpdate bf err now j ∈ (fail bf q jobId err now).1.jobs ∧
    failThriceEnd.jobs.map (fun x => (x.status, x.attempt_count, x.last_error))
      = [(JobStatus.failed, 3, some "e3")] ∧
    failTwiceDoneEnd.jobs.map (fun x => (x.status, x.attempt_count))
      = [(JobStatus.done, 2)] := by
  have hok : (fail bf q jobId err now).2 = .ok := by
    unfold fail
    simp only [hfind]
    rw [if_pos hr]
  have hmemstate : failUpdate bf err now j ∈ (fail bf q jobId err now).1.jobs := by
    have hmem : j ∈ q.jobs := List.mem_of_find?_eq_some hfind
    have hjidb := List.find?_some hfind
    have hjid : j.id = jobId := by simpa using hjidb
    have hfn : failGuarded bf jobId err now j = failUpdate bf err now j := by
      unfold failGuarded
      rw [if_pos ⟨hjid, hr⟩]
    have hmm := List.mem_map_of_mem (failGuarded bf jobId err now) hmem
    rw [hfn] at hmm
    unfold fail
    simp only [hfind]
    rw [if_pos hr]
    exact hmm
  refine ⟨hok, ?_, ?_, ?_, hmemstate, by decide, by decide⟩
  · unfold failUpdate
    split <;> rfl
  · intro hlt
    unfold failUpdate
    rw [if_pos hlt]
    exact ⟨rfl, rfl, rfl⟩
  · intro hge
    unfold failUpdate
    rw [if_neg hge]
    exact ⟨rfl, rfl⟩

/-- Claim C3 witness: the first fail of the `max_attempts = 3` scenario
job reports `ok`, increments the attempt count to 1 and requeues it with
backoff 2. -/
theorem c3_fail_retry_semantics_witness :
    (fail expBackoff { jobs := [retryJob 3], nextId := 1 } 0 "e1" 0).2 = .ok ∧
    (failUpdate expBackoff "e1" 0 (retryJob 3)).attempt_count
      = (retryJob 3).attempt_count + 1 ∧
    ((retryJob 3).attempt_count + 1 < (retryJob 3).max_attempts →
      (failUpdate expBackoff "e1" 0 (retryJob 3)).status = .queued ∧
      (failUpdate expBackoff "e1" 0 (retryJob 3)).run_after
        = 0 + expBackoff ((retryJob 3).attempt_count + 1) ∧
      (failUpdate expBackoff "e1" 0 (retryJob 3)).last_error = some "e1") ∧
    (¬ (retryJob 3).attempt_count + 1 < (retryJob 3).max_attempts →
      (failUpdate expBackoff "e1" 0 (retryJob 3)).status = .failed ∧
      (failUpdate expBackoff "e1" 0 (retryJob 3)).last_error = some "e1") ∧
    failUpdate expBackoff "e1" 0 (retryJob 3)
      ∈ (fail expBackoff { jobs := [retryJob 3], nextId := 1 } 0 "e1" 0).1.jobs ∧
    failThriceEnd.jobs.map (fun x => (x.status, x.attempt_count, x.last_error))
      = [(JobStatus.failed, 3, some "e3")] ∧
    failTwiceDoneEnd.jobs.map (fun x => (x.status, x.attempt_count))
      = [(JobStatus.done, 2)] :=
  c3_fail_retry_semantics expBackoff { jobs := [retryJob 3], nextId := 1 }
    0 "e1" 0 (retryJob 3) (by decide) (by decide)

lemma latestArtifactHash_after_fetch (st : FetchState) (s rs : Nat)
    (pv h : String) (now : Nat) :
    latestArtifactHash (fetchArtifacts st s rs pv h now).artifacts s pv
      = some h := by
  unfold fetchArtifacts
  split
  · rename_i heq
    exact heq
  · show latestArtifactHash
      (st.artifacts ++ [freshArtifact st s rs pv h now]) s pv = some h
    unfold latestArtifactHash
    rw [List.filter_append]
    have hmatch : List.filter (fun a => a.skill_id == s && a.parse_version == pv)
        [freshArtifact st s rs pv h now] = [freshArtifact st s rs pv h now] := by
      simp [freshArtifact]
    rw [hmatch, List.map_append]
    show (_ ++ [(freshArtifact st s rs pv h now).artifact_hash]).getLast? = some h
    rw [List.getLast?_concat]
    rfl

lemma fetchArtifacts_noop_of_latest (st : FetchState) (s rs : Nat)
    (pv h : String) (now : Nat)
    (hl : latestArtifactHash st.artifacts s pv = some h) :
    (fetchArtifacts st s rs pv h now).artifacts = st.artifacts := by
  unfold fetchArtifacts
  rw [if_pos hl]

/-- Claim C5: when the fetched hash equals the most recent artifact's hash
for (skill, parse_version), the fetcher creates no artifact row and marks
the repo source `done`; when it differs or no artifact exists, it appends
exactly one new artifact row with `fetch_status = done`, enqueues one
analyze job for it, and leaves every existing artifact row unmodified;
re-running against unchanged content is a no-op on the artifact table. -/
theorem c5_fetcher_behavior (st : FetchState) (s rs : Nat) (pv h : String)
    (now now' : Nat) :
    (latestArtifactHash st.artifacts s pv = some h →
      (fetchArtifacts st s rs pv h now).artifacts = st.artifacts ∧
      ∀ r ∈ st.repoSources, r.id = rs →
        { r with fetch_status := JobStatus.done, last_fetched_at := some now }
          ∈ (fetchArtifacts st s rs pv h now).repoSources) ∧
    (latestArtifactHash st.artifacts s pv ≠ some h →
      (fetchArtifacts st s rs pv h now).artifacts
        = st.artifacts ++ [freshArtifact st s rs pv h now] ∧
      (freshArtifact st s rs pv h now).fetch_status = .done ∧
      (fetchArtifacts st s rs pv h now).queue
        = (enqueue st.queue .analyze st.nextArtifactId "{}" 100 now).1 ∧
      ∀ a ∈ st.artifacts, a ∈ (fetchArtifacts st s rs pv h now).artifacts) ∧
    (fetchArtifacts (fetchArtifacts st s rs pv h now) s rs pv h now').artifacts
      = (fetchArtifacts st s rs pv h now).artifacts := by
  refine ⟨?_, ?_, ?_⟩
  · intro hl
    refine ⟨fetchArtifacts_noop_of_latest st s rs pv h now hl, ?_⟩
    intro r hr hid
    have hrepo : (fetchArtifacts st s rs pv h now).repoSources
        = markRepoSourceDone st.repoSources rs now := by
      unfold fetchArtifacts
      rw [if_pos hl]
    rw [hrepo]
    have hfr : repoSourceDoneUpdate rs now r
        = { r with fetch_status := JobStatus.done, last_fetched_at := some now } := by
      unfold repoSourceDoneUpdate
      rw [if_pos hid]
    have hmm := List.mem_map_of_mem (repoSourceDoneUpdate rs now) hr
    rwa [hfr] at hmm
  · intro hl
    have harts : (fetchArtifacts st s rs pv h now).artifacts
        = st.artifacts ++ [freshArtifact st s rs pv h now] := by
      unfold fetchArtifacts
      rw [if_neg hl]
    refine ⟨harts, rfl, ?_, ?_⟩
    · unfold fetchArtifacts
      rw [if_neg hl]
    · intro a ha
      rw [harts]
      exact List.mem_append_left _ ha
  · exact fetchArtifacts_noop_of_latest _ s rs pv h now'
      (latestArtifactHash_after_fetch st s rs pv h now)

/-- Claim C5 witness: with no prior artifact, fetching hash "h1" appends
one `done` artifact row, enqueues its analyze job, and keeps old rows. -/
theorem c5_fetcher_behavior_witness :
    (fetchArtifacts sampleFetchState 1 0 "v1" "h1" 4).artifacts
      = sampleFetchState.artifacts ++ [freshArtifact sampleFetchState 1 0 "v1" "h1" 4] ∧
    (freshArtifact sampleFetchState 1 0 "v1" "h1" 4).fetch_status = .done ∧
    (fetchArtifacts sampleFetchState 1 0 "v1" "h1" 4).queue
      = (enqueue sampleFetchState.queue .analyze sampleFetchState.nextArtifactId
          "{}" 100 4).1 ∧
    ∀ a ∈ sampleFetchState.artifacts,
      a ∈ (fetchArtifacts sampleFetchState 1 0 "v1" "h1" 4).artifacts :=
  (c5_fetcher_behavior sampleFetchState 1 0 "v1" "h1" 4 5).2.1 (by decide)

lemma analysisKey_overwrite (a : Nat) (v : String) (row r : SkillAnalysis)
    (h : analysisKey a v (overwriteAnalysis row r) = true) :
    analysisKey a v r = true := by
  unfold overwriteAnalysis at h
  split at h
  · rename_i hmatch
    simp only [analysisKey, Bool.and_eq_true, beq_iff_eq] at h hmatch ⊢
    exact ⟨hmatch.1.trans h.1, hmatch.2.trans h.2⟩
  · exact h

lemma upsertAnalysis_countP_le (l : List SkillAnalysis) (row : SkillAnalysis)
    (huniq : ∀ a v, l.countP (analysisKey a v) ≤ 1) (a : Nat) (v : String) :
    (upsertAnalysis l row).countP (analysisKey a v) ≤ 1 := by
  unfold upsertAnalysis
  split
  · exact le_trans (countP_map_le_of_imp _ _ _
      (fun r _ h => analysisKey_overwrite a v row r h)) (huniq a v)
  · rename_i hany
    rw [List.countP_append, List.countP_singleton]
    by_cases hc : analysisKey a v row = true
    · have hzero : l.countP (analysisKey a v) = 0 := by
        rw [List.countP_eq_zero]
        intro b hb hcb
        apply hany
        rw [List.any_eq_true]
        refine ⟨b, hb, ?_⟩
        simp only [analysisKey, Bool.and_eq_true, beq_iff_eq] at hc hcb ⊢
        exact ⟨hcb.1.trans hc.1.symm, hcb.2.trans hc.2.symm⟩
      rw [hzero, if_pos hc]
    · rw [if_neg hc, Nat.add_zero]
      exact huniq a v

lemma upsertAnalysis_key_present (l : List SkillAnalysis) (row : SkillAnalysis) :
    0 < (upsertAnalysis l row).countP
      (analysisKey row.artifact_id row.analysis_version) := by
  rw [List.countP_pos_iff]
  unfold upsertAnalysis
  split
  · rename_i hany
    rw [List.any_eq_true] at hany
    obtain ⟨r0, hr0, hkey⟩ := hany
    refine ⟨overwriteAnalysis row r0, List.mem_map_of_mem _ hr0, ?_⟩
    unfold overwriteAnalysis
    rw [if_pos hkey]
    simp [analysisKey]
  · exact ⟨row, List.mem_append_right _ (List.mem_singleton_self row),
      by simp [analysisKey]⟩

lemma upsertAnalysis_length_of_present (l : List SkillAnalysis)
    (row : SkillAnalysis)
    (hany : l.any (analysisKey row.artifact_id row.analysis_version) = true) :
    (upsertAnalysis l row).length = l.length := by
  unfold upsertAnalysis
  rw [if_pos hany, List.length_map]

/-- Claim C6: the Analysis Orchestrator's write is an upsert on the unique
(artifact_id, analysis_version) key: it preserves at-most-one-row-per-key,
leaves exactly one row for the written key, and a second run for the same
(artifact, analysis_version) overwrites instead of inserting — the row
count does not grow. -/
theorem c6_orchestrator_idempotent (analyses : List SkillAnalysis)
    (n1 n2 skillId aid : Nat) (ver : String) (findings : List Severity)
    (huniq : ∀ a v, analyses.countP (analysisKey a v) ≤ 1) :
    (∀ a v, (runAnalysis analyses n1 skillId aid ver findings).countP
        (analysisKey a v) ≤ 1) ∧
    (runAnalysis analyses n1 skillId aid ver findings).countP
        (analysisKey aid ver) = 1 ∧
    (runAnalysis (runAnalysis analyses n1 skillId aid ver findings)
        n2 skillId aid ver findings).length
      = (runAnalysis analyses n1 skillId aid ver findings).length := by
  have h1 : ∀ a v, (runAnalysis analyses n1 skillId aid ver findings).countP
      (analysisKey a v) ≤ 1 :=
    fun a v => upsertAnalysis_countP_le analyses _ huniq a v
  have hpos : 0 < (runAnalysis analyses n1 skillId aid ver findings).countP
      (analysisKey aid ver) :=
    upsertAnalysis_key_present analyses
      { id := n1
        skill_id := skillId
        repo_source_id := none
        artifact_id := aid
        analysis_version := ver
        status := .done
        overall_score := some (overallScore findings)
        trust_badge := some (trustBadge (overallScore findings))
        error_message := none }
  refine ⟨h1, ?_, ?_⟩
  · have hle := h1 aid ver
    omega
  · apply upsertAnalysis_length_of_present
    rw [List.any_eq_true]
    rw [List.countP_pos_iff] at hpos
    exact hpos

/-- Claim C6 witness: starting from an empty analysis table, the first run
writes the single row for (artifact 7, version a1) and the second run
leaves the row count unchanged. -/
theorem c6_orchestrator_idempotent_witness :
    (∀ a v, (runAnalysis [] 0 5 7 "a1" []).countP (analysisKey a v) ≤ 1) ∧
    (runAnalysis [] 0 5 7 "a1" []).countP (analysisKey 7 "a1") = 1 ∧
    (runAnalysis (runAnalysis [] 0 5 7 "a1" []) 1 5 7 "a1" []).length
      = (runAnalysis [] 0 5 7 "a1" []).length :=
  c6_orchestrator_idempotent [] 0 1 5 7 "a1" [] (fun a v => by simp)

/-- Claim C8: `overall_score` is the weighted sum of the security findings
with CRITICAL=100, HIGH=25, MEDIUM=5, LOW=1, and the trust badge bands the
score at thresholds 5/20/50/100: 0-4 Verified Safe, 5-19 Generally Safe,
20-49 Review Recommended, 50-99 Use With Caution, 100+ Not Recommended. -/
theorem c8_scoring_and_badges (findings : List Severity) (n : Nat) :
    overallScore findings
      = 100 * findings.count .CRITICAL + 25 * findings.count .HIGH
        + 5 * findings.count .MEDIUM + findings.count .LOW ∧
    (n ≤ 4 → trustBadge n = "Verified Safe") ∧
    (5 ≤ n → n ≤ 19 → trustBadge n = "Generally Safe") ∧
    (20 ≤ n → n ≤ 49 → trustBadge n = "Review Recommended") ∧
    (50 ≤ n → n ≤ 99 → trustBadge n = "Use With Caution") ∧
    (100 ≤ n → trustBadge n = "Not Recommended") := by
  refine ⟨?_, ?_, ?_, ?_, ?_, ?_⟩
  · induction findings with
    | nil => rfl
    | cons f fs ih =>
      cases f <;>
        simp [overallScore, severityPoints, List.count_cons, List.map_cons,
          List.sum_cons] at ih ⊢ <;>
        omega
  · intro h1
    unfold trustBadge
    rw [if_pos h1]
  · intro h1 h2
    unfold trustBadge
    rw [if_neg (by omega), if_pos h2]
  · intro h1 h2
    unfold trustBadge
    rw [if_neg (by omega), if_neg (by omega), if_pos h2]
  · intro h1 h2
    unfold trustBadge
    rw [if_neg (by omega), if_neg (by omega), if_neg (by omega), if_pos h2]
  · intro h1
    unfold trustBadge
    rw [if_neg (by omega), if_neg (by omega), if_neg (by omega),
      if_neg (by omega)]

/-- Claim C8 witness: one HIGH and one LOW finding score 26, banded as
Review Recommended. -/
theorem c8_scoring_and_badges_witness :
    overallScore [Severity.HIGH, Severity.LOW]
      = 100 * [Severity.HIGH, Severity.LOW].count .CRITICAL
        + 25 * [Severity.HIGH, Severity.LOW].count .HIGH
        + 5 * [Severity.HIGH, Severity.LOW].count .MEDIUM
        + [Severity.HIGH, Severity.LOW].count .LOW ∧
    trustBadge 26 = "Review Recommended" :=
  ⟨(c8_scoring_and_badges [Severity.HIGH, Severity.LOW] 26).1,
   (c8_scoring_and_badges [Severity.HIGH, Severity.LOW] 26).2.2.2.1
     (by decide) (by decide)⟩

lemma canonicalKey_rescrapeUpdate (source owner repo slug : String)
    (installs now : Nat) (r : SkillRow) :
    canonicalKey (rescrapeUpdate source owner repo slug installs now r)
      = canonicalKey r := by
  unfold rescrapeUpdate
  split <;> rfl

lemma skillStaticFields_rescrapeUpdate (source owner repo slug : String)
    (installs now : Nat) (r : SkillRow) :
    skillStaticFields (rescrapeUpdate source owner repo slug installs now r)
      = skillStaticFields r := by
  unfold rescrapeUpdate
  split <;> rfl

lemma skillsDistinct_discover (tbl : SkillsTable)
    (source owner repo slug name url cmd content : String) (now : Nat)
    (hp : tbl.rows.Pairwise (fun a b => canonicalKey a ≠ canonicalKey b)) :
    (discover tbl source owner repo slug name url cmd content now).rows.Pairwise
      (fun a b => canonicalKey a ≠ canonicalKey b) := by
  unfold discover
  split
  · exact hp
  · rename_i hany
    show (tbl.rows ++
      [discoveredRow tbl source owner repo slug name url cmd content now]).Pairwise _
    rw [List.pairwise_append]
    refine ⟨hp, List.pairwise_singleton _ _, ?_⟩
    intro a ha b hb
    rw [List.mem_singleton] at hb
    subst hb
    intro hkey
    apply hany
    rw [List.any_eq_true]
    refine ⟨a, ha, ?_⟩
    simp only [decide_eq_true_eq]
    rw [hkey]
    rfl

lemma skillsDistinct_rescrape (tbl : SkillsTable)
    (source owner repo slug : String) (installs now : Nat)
    (hp : tbl.rows.Pairwise (fun a b => canonicalKey a ≠ canonicalKey b)) :
    (rescrape tbl source owner repo slug installs now).rows.Pairwise
      (fun a b => canonicalKey a ≠ canonicalKey b) := by
  unfold rescrape
  refine List.Pairwise.map _ (fun a b hab => ?_) hp
  rw [canonicalKey_rescrapeUpdate, canonicalKey_rescrapeUpdate]
  exact hab

/-- Claim C9: in every skills-table state reachable through discovery and
re-scrapes, distinct rows have distinct (source, owner, repo, skill_slug)
tuples — the `idx_skills_canonical` uniqueness — and a re-scrape changes
only metrics and timestamps: the identity/static columns of every row are
untouched. -/
theorem c9_skills_canonical_unique (tbl : SkillsTable)
    (h : SkillsReachable tbl) :
    tbl.rows.Pairwise (fun a b => canonicalKey a ≠ canonicalKey b) ∧
    ∀ source owner repo slug installs now,
      (rescrape tbl source owner repo slug installs now).rows.map skillStaticFields
        = tbl.rows.map skillStaticFields := by
  constructor
  · induction h with
    | empty => exact List.Pairwise.nil
    | discover tbl source owner repo slug name url cmd content now _ ih =>
      exact skillsDistinct_discover tbl source owner repo slug name url cmd
        content now ih
    | rescrape tbl source owner repo slug installs now _ ih =>
      exact skillsDistinct_rescrape tbl source owner repo slug installs now ih
  · intro source owner repo slug installs now
    show (tbl.rows.map (rescrapeUpdate source owner repo slug installs now)).map
        skillStaticFields = tbl.rows.map skillStaticFields
    rw [List.map_map]
    apply List.map_congr_left
    intro a _
    show skillStaticFields (rescrapeUpdate source owner repo slug installs now a)
      = skillStaticFields a
    exact skillStaticFields_rescrapeUpdate source owner repo slug installs now a

/-- Claim C9 witness: the table holding one discovered skill has pairwise
distinct canonical tuples and re-scrapes keep its static columns. -/
theorem c9_skills_canonical_unique_witness :
    (discover { rows := [], nextId := 0 } "skills.sh" "o" "r" "s" "n" "u" "c"
      "k" 3).rows.Pairwise (fun a b => canonicalKey a ≠ canonicalKey b) ∧
    ∀ source owner repo slug installs now,
      (rescrape (discover { rows := [], nextId := 0 } "skills.sh" "o" "r" "s"
          "n" "u" "c" "k" 3) source owner repo slug installs now).rows.map
        skillStaticFields
        = (discover { rows := [], nextId := 0 } "skills.sh" "o" "r" "s" "n" "u"
            "c" "k" 3).rows.map skillStaticFields :=
  c9_skills_canonical_unique _
    (SkillsReachable.discover _ "skills.sh" "o" "r" "s" "n" "u" "c" "k" 3
      SkillsReachable.empty)

/-- Claim C7 witness: a lease with limit 3 against the five-job queue
returns at most three jobs. -/
theorem c7_lease_postcondition_witness :
    (lease sampleQueue5 1 [JobType.fetch_artifacts] 3 0).2.length ≤ 3 ∧
    (lease sampleQueue5 1 [JobType.fetch_artifacts] 3 0).2.Pairwise leaseLe :=
  ⟨(c7_lease_postcondition sampleQueue5 1 [JobType.fetch_artifacts] 3 0).1,
   (c7_lease_postcondition sampleQueue5 1 [JobType.fetch_artifacts] 3 0).2.1⟩

lemma mem_artifactIdsOfRepoSource (db : Db) (r : Nat) (x : SkillArtifact)
    (hx : x ∈ db.artifacts) (hxr : x.repo_source_id = r) :
    x.id ∈ artifactIdsOfRepoSource db r := by
  unfold artifactIdsOfRepoSource
  refine List.mem_map_of_mem (·.id) (List.mem_filter.mpr ⟨hx, ?_⟩)
  show (x.repo_source_id == r) = true
  simp [hxr]

lemma mem_artifactIdsOfSkill (db : Db) (s : Nat) (x : SkillArtifact)
    (hx : x ∈ db.artifacts) (hxs : x.skill_id = s) :
    x.id ∈ artifactIdsOfSkill db s := by
  unfold artifactIdsOfSkill
  refine List.mem_map_of_mem (·.id) (List.mem_filter.mpr ⟨hx, ?_⟩)
  show (x.skill_id == s) = true
  simp [hxs]

lemma nullifyAnalysisRepoSource_artifact_id (r : Nat) (y : SkillAnalysis) :
    (nullifyAnalysisRepoSource r y).artifact_id = y.artifact_id := by
  unfold nullifyAnalysisRepoSource
  split <;> rfl

lemma nullifyJobRepoSource_artifact_id (r : Nat) (j : AnalysisJob) :
    (nullifyJobRepoSource r j).artifact_id = j.artifact_id := by
  unfold nullifyJobRepoSource
  split <;> rfl

lemma nullifyAnalysisRepoSource_ne (r : Nat) (y : SkillAnalysis) :
    (nullifyAnalysisRepoSource r y).repo_source_id ≠ some r := by
  unfold nullifyAnalysisRepoSource
  split
  · simp
  · rename_i hne
    exact hne

lemma nullifyJobRepoSource_ne (r : Nat) (j : AnalysisJob) :
    (nullifyJobRepoSource r j).repo_source_id ≠ some r := by
  unfold nullifyJobRepoSource
  split
  · simp
  · rename_i hne
    exact hne

/-- Claim C10: the deletion frame of the foreign-key actions. Deleting a
RepoSource cascade-deletes exactly the artifacts referencing it, and
transitively the analyses and jobs of those artifacts; surviving analyses
and jobs are kept with their `repo_source_id` set to NULL rather than
deleted. Deleting a Skill cascade-deletes its artifacts, its analyses and
the jobs referencing it (directly or through a cascaded artifact).
Deleting a skill or an artifact never removes a `repo_sources` row. -/
theorem c10_deletion_frame (db : Db) (r s a0 : Nat) :
    (∀ x ∈ (deleteRepoSource db r).artifacts, x.repo_source_id ≠ r) ∧
    (∀ x ∈ db.artifacts, x.repo_source_id ≠ r →
        x ∈ (deleteRepoSource db r).artifacts) ∧
    (∀ y ∈ (deleteRepoSource db r).analyses, ∀ x ∈ db.artifacts,
        x.repo_source_id = r → y.artifact_id ≠ x.id) ∧
    (∀ j ∈ (deleteRepoSource db r).jobs, ∀ x ∈ db.artifacts,
        x.repo_source_id = r → j.artifact_id ≠ some x.id) ∧
    (∀ y ∈ (deleteRepoSource db r).analyses, y.repo_source_id ≠ some r) ∧
    (∀ j ∈ (deleteRepoSource db r).jobs, j.repo_source_id ≠ some r) ∧
    (∀ y ∈ db.analyses, y.artifact_id ∉ artifactIdsOfRepoSource db r →
        nullifyAnalysisRepoSource r y ∈ (deleteRepoSource db r).analyses) ∧
    (∀ j ∈ db.jobs, j.artifact_id ∉ (artifactIdsOfRepoSource db r).map some →
        nullifyJobRepoSource r j ∈ (deleteRepoSource db r).jobs) ∧
    (∀ x ∈ (deleteSkill db s).artifacts, x.skill_id ≠ s) ∧
    (∀ y ∈ (deleteSkill db s).analyses, y.skill_id ≠ s ∧
        ∀ x ∈ db.artifacts, x.skill_id = s → y.artifact_id ≠ x.id) ∧
    (∀ j ∈ (deleteSkill db s).jobs, j.skill_id ≠ some s ∧
        ∀ x ∈ db.artifacts, x.skill_id = s → j.artifact_id ≠ some x.id) ∧
    (deleteSkill db s).repo_sources = db.repo_sources ∧
    (deleteArtifact db a0).repo_sources = db.repo_sources ∧
    (deleteArtifact db a0).skills = db.skills := by
  refine ⟨?_, ?_, ?_, ?_, ?_, ?_, ?_, ?_, ?_, ?_, ?_, rfl, rfl, rfl⟩
  · intro x hx
    have := List.of_mem_filter hx
    simpa using this
  · intro x hx hne
    exact List.mem_filter.mpr ⟨hx, by simpa using hne⟩
  · intro y hy x hx hxr
    have hy' : y ∈ (db.analyses.filter
        (fun z => decide (z.artifact_id ∉ artifactIdsOfRepoSource db r))).map
      (nullifyAnalysisRepoSource r) := hy
    rw [List.mem_map] at hy'
    obtain ⟨y0, hy0, heq⟩ := hy'
    have hnot : y0.artifact_id ∉ artifactIdsOfRepoSource db r := by
      have := List.of_mem_filter hy0
      simpa using this
    have hxid : x.id ∈ artifactIdsOfRepoSource db r :=
      mem_artifactIdsOfRepoSource db r x hx hxr
    rw [← heq, nullifyAnalysisRepoSource_artifact_id]
    intro hcontra
    rw [hcontra] at hnot
    exact hnot hxid
  · intro j hj x hx hxr
    have hj' : j ∈ (db.jobs.filter
        (fun z => decide (z.artifact_id ∉ (artifactIdsOfRepoSource db r).map some))).map
      (nullifyJobRepoSource r) := hj
    rw [List.mem_map] at hj'
    obtain ⟨j0, hj0, heq⟩ := hj'
    have hnot : j0.artifact_id ∉ (artifactIdsOfRepoSource db r).map some := by
      have := List.of_mem_filter hj0
      simpa using this
    have hxid : some x.id ∈ (artifactIdsOfRepoSource db r).map some :=
      List.mem_map_of_mem some (mem_artifactIdsOfRepoSource db r x hx hxr)
    rw [← heq, nullifyJobRepoSource_artifact_id]
    intro hcontra
    rw [hcontra] at hnot
    exact hnot hxid
  · intro y hy
    have hy' : y ∈ (db.analyses.filter
        (fun z => decide (z.artifact_id ∉ artifactIdsOfRepoSource db r))).map
      (nullifyAnalysisRepoSource r) := hy
    rw [List.mem_map] at hy'
    obtain ⟨y0, -, heq⟩ := hy'
    rw [← heq]
    exact nullifyAnalysisRepoSource_ne r y0
  · intro j hj
    have hj' : j ∈ (db.jobs.filter
        (fun z => decide (z.artifact_id ∉ (artifactIdsOfRepoSource db r).map some))).map
      (nullifyJobRepoSource r) := hj
    rw [List.mem_map] at hj'
    obtain ⟨j0, -, heq⟩ := hj'
    rw [← heq]
    exact nullifyJobRepoSource_ne r j0
  · intro y hy hnot
    exact List.mem_map_of_mem (nullifyAnalysisRepoSource r)
      (List.mem_filter.mpr ⟨hy, by simpa using hnot⟩)
  · intro j hj hnot
    exact List.mem_map_of_mem (nullifyJobRepoSource r)
      (List.mem_filter.mpr ⟨hj, by simpa using hnot⟩)
  · intro x hx
    have := List.of_mem_filter hx
    simpa using this
  · intro y hy
    have := List.of_mem_filter hy
    rw [decide_eq_true_eq] at this
    refine ⟨this.1, ?_⟩
    intro x hx hxs
    have hxid : x.id ∈ artifactIdsOfSkill db s :=
      mem_artifactIdsOfSkill db s x hx hxs
    intro hcontra
    rw [hcontra] at this
    exact this.2 hxid
  · intro j hj
    have := List.of_mem_filter hj
    rw [decide_eq_true_eq] at this
    refine ⟨this.1, ?_⟩
    intro x hx hxs
    have hxid : some x.id ∈ (artifactIdsOfSkill db s).map some :=
      List.mem_map_of_mem some (mem_artifactIdsOfSkill db s x hx hxs)
    intro hcontra
    rw [hcontra] at this
    exact this.2 hxid

/-- Claim C10 witness: on the sample database, deleting skill 1 or
artifact 0 keeps every `repo_sources` row, and deleting repo source 0
removes its artifact while keeping the unrelated analysis row with its
reference nulled. -/
theorem c10_deletion_frame_witness :
    (deleteSkill sampleDb 1).repo_sources = sampleDb.repo_sources ∧
    (deleteArtifact sampleDb 0).repo_sources = sampleDb.repo_sources ∧
    (∀ x ∈ (deleteRepoSource sampleDb 0).artifacts, x.repo_source_id ≠ 0) :=
  ⟨(c10_deletion_frame sampleDb 0 1 0).2.2.2.2.2.2.2.2.2.2.2.1,
   (c10_deletion_frame sampleDb 0 1 0).2.2.2.2.2.2.2.2.2.2.2.2.1,
   (c10_deletion_frame sampleDb 0 1 0).1⟩

end SkillLens

